import Mathlib

/-!
Shallow embedding of the proximal operator library (prox.py) and of the
proximal Langevin Monte Carlo samplers (prox_lmc.py) from the lmc-atomi
repository, together with theorems settling the frozen claims about them.

Real-valued numpy scalars are embedded as elements of a linear ordered
field; numpy and scipy primitives that have no algebraic closed form over
such a field (exp, sqrt, cube root, sinh, arcsinh, pi, the matrix spectral
norm, and the pseudorandom generator) are abstracted as explicit function
parameters or as fields of the sampler model, while everything the Python
source computes from them is embedded concretely.  Python code paths that
raise exceptions are embedded as Except values.
-/

namespace ProxLMC

variable {α : Type} [LinearOrderedField α]

/-- Embedding of numpy.sign on scalars: 1 for positive input, -1 for
negative input, and 0 at 0. -/
def np_sign (x : α) : α := if 0 < x then 1 else if x < 0 then -1 else 0

/-- Embedding of prox_laplace from prox.py (soft thresholding):
np.sign(x) * np.maximum(np.abs(x) - gamma, 0). -/
def prox_laplace (x gamma : α) : α := np_sign x * max (|x| - gamma) 0

/-- Elementwise broadcast of prox_laplace over a d-dimensional vector,
as numpy broadcasting applies it when prox.prox_laplace receives an array. -/
def prox_laplace_v {d : ℕ} (x : Fin d → α) (gamma : α) : Fin d → α :=
  fun i => prox_laplace (x i) gamma

/-- Embedding of prox_conjugate from prox.py:
x - gamma * prox(x / gamma, 1/gamma). -/
def prox_conjugate (x gamma : α) (prox : α → α → α) : α :=
  x - gamma * prox (x / gamma) (1 / gamma)

/-- Embedding of prox_gaussian from prox.py: x / (2*gamma + 1). -/
def prox_gaussian (x gamma : α) : α := x / (2 * gamma + 1)

/-- Embedding of prox_huber from prox.py on a scalar input.  The parameter
sqrt embeds the numpy primitive np.sqrt, which has no closed form over a
general linear ordered field; the source reads
x / (2*tau + 1) if np.abs(x) <= gamma * (2*tau + 1) / np.sqrt(2*tau)
else x - gamma * np.sqrt(2 * tau) * np.sign(x). -/
def prox_huber (sqrt : α → α) (x gamma tau : α) : α :=
  if |x| ≤ gamma * (2 * tau + 1) / sqrt (2 * tau) then x / (2 * tau + 1)
  else x - gamma * sqrt (2 * tau) * np_sign x

/-- Embedding of prox_exp from prox.py on a scalar input:
x - gamma if x >= gamma else 0. -/
def prox_exp (x gamma : α) : α := if x ≥ gamma then x - gamma else 0

/-- Python exceptions raised by the embedded code paths.  unboundLocalProx
models the UnboundLocalError raised when prox_gen_gaussian falls through
every branch of its if/elif chain and then returns the never-assigned local
variable named prox.  ambiguousTruthValue models the ValueError numpy
raises when the Python truth value of a boolean array with a number of
elements different from one is requested, as happens when a conditional
expression branches on an elementwise comparison of an array. -/
inductive PyErr : Type
  | unboundLocalProx : PyErr
  | ambiguousTruthValue : PyErr
deriving DecidableEq

/-- Embedding of the Python truth value bool(a) of a numpy boolean array:
it is defined only for arrays with exactly one element and raises
ValueError otherwise. -/
def npBool : List Bool → Except PyErr Bool
  | [b] => Except.ok b
  | _ => Except.error PyErr.ambiguousTruthValue

/-- Embedding of prox_huber from prox.py applied to a numpy array.  The
comparison np.abs(x) <= gamma * (2*tau + 1) / np.sqrt(2*tau) is elementwise
and produces a boolean array; the Python conditional expression then takes
the truth value of that array, which raises ValueError unless the array has
exactly one element.  Both result branches broadcast elementwise. -/
def prox_huber_arr (sqrt : α → α) (x : List α) (gamma tau : α) :
    Except PyErr (List α) :=
  match npBool (x.map fun a => decide (|a| ≤ gamma * (2 * tau + 1) / sqrt (2 * tau))) with
  | Except.ok true => Except.ok (x.map fun a => a / (2 * tau + 1))
  | Except.ok false => Except.ok (x.map fun a => a - gamma * sqrt (2 * tau) * np_sign a)
  | Except.error e => Except.error e

/-- Embedding of prox_exp from prox.py applied to a numpy array.  The
comparison x >= gamma is elementwise; the conditional expression takes the
truth value of the boolean array (ValueError unless one element); the first
branch is the array x - gamma while the second branch is the Python scalar
0.0, embedded as the right summand. -/
def prox_exp_arr (x : List α) (gamma : α) : Except PyErr (List α ⊕ α) :=
  match npBool (x.map fun a => decide (a ≥ gamma)) with
  | Except.ok true => Except.ok (Sum.inl (x.map fun a => a - gamma))
  | Except.ok false => Except.ok (Sum.inr 0)
  | Except.error e => Except.error e

/-- Embedding of prox_gen_gaussian from prox.py.  The parameters sqrt and
cbrt embed np.sqrt and the Python power (...)**(1/3); every base of a cube
root in the source is nonnegative on the reachable inputs.  The source
assigns the local variable prox in the branches p == 4/3, 3/2, 3, 4 of an
if/elif chain with no else branch, then returns prox; for every other p the
return statement raises UnboundLocalError. -/
def prox_gen_gaussian (sqrt cbrt : α → α) (x gamma p : α) : Except PyErr α :=
  if p = 4 / 3 then
    let xi := sqrt (x ^ 2 + 256 * gamma ^ 3 / 729)
    Except.ok (x + 4 * gamma / (3 * cbrt 2) * (cbrt (xi - x) - cbrt (xi + x)))
  else if p = 3 / 2 then
    Except.ok (x + 9 * gamma ^ 2 * np_sign x * (1 - sqrt (1 + 16 * |x| / (9 * gamma ^ 2))) / 8)
  else if p = 3 then
    Except.ok (np_sign x * (sqrt (1 + 12 * gamma * |x|) - 1) / (6 * gamma))
  else if p = 4 then
    let xi := sqrt (x ^ 2 + 1 / (27 * gamma))
    Except.ok (cbrt ((xi + x) / (8 * gamma)) - cbrt ((xi - x) / (8 * gamma)))
  else Except.error PyErr.unboundLocalProx

/-- Vectors of dimension d, embedding one-dimensional numpy arrays. -/
abbrev Vec (α : Type) (d : ℕ) : Type := Fin d → α

/-- Square matrices of dimension d. -/
abbrev Mat (α : Type) (d : ℕ) : Type := Matrix (Fin d) (Fin d) α

/-- Embedding of np.linalg.inv via the adjugate formula; on the invertible
matrices the samplers are run with, this agrees with the numpy inverse. -/
def npInv {d : ℕ} (A : Mat α d) : Mat α d := A.det⁻¹ • A.adjugate

/-- The data held by a ProximalLangevinMonteCarlo object from prox_lmc.py,
together with embeddings of the transcendental numpy/scipy primitives it
calls and of the numpy pseudorandom generator.  The field sqrtm embeds
scipy.linalg.sqrtm and rpow embeds the numpy elementwise float power used
with the non-integer exponents -.5 and -.25.  The generator state type G
is abstract; default_rng embeds numpy.random.default_rng, and the three
draw fields embed rng.standard_normal(d), rng.multivariate_normal(zeros,
identity) and rng.random(), each returning the drawn value and the next
generator state. -/
structure PLMC (α : Type) (d : ℕ) (G : Type) where
  mus : List (Vec α d)
  Sigmas : List (Mat α d)
  omegas : List α
  lamda : α
  alpha : α
  mu : Vec α d
  n : ℕ
  seed : ℕ
  exp : α → α
  sqrt : α → α
  pi : α
  sinh : α → α
  arcsinh : α → α
  norm2 : Mat α d → α
  sqrtm : Mat α d → Mat α d
  rpow : α → α → α
  default_rng : ℕ → G
  standard_normal : G → Vec α d × G
  multivariate_normal : G → Vec α d × G
  random : G → α × G

variable {d : ℕ} {G : Type}

/-- Embedding of ProximalLangevinMonteCarlo.multivariate_gaussian: the
normalized Gaussian density with the quadratic form written by einsum. -/
def multivariate_gaussian (m : PLMC α d G) (theta mu : Vec α d) (Sigma : Mat α d) : α :=
  let Sigma_inv := npInv Sigma
  let N := m.sqrt ((2 * m.pi) ^ d * |Sigma.det|)
  m.exp (-(Matrix.dotProduct (theta - mu) (Sigma_inv.mulVec (theta - mu))) / 2) / N

/-- Embedding of ProximalLangevinMonteCarlo.density_gaussian_mixture. -/
def density_gaussian_mixture (m : PLMC α d G) (theta : Vec α d) : α :=
  (((List.range m.mus.length).map fun i =>
    m.omegas.getD i 0 * multivariate_gaussian m theta (m.mus.getD i 0) (m.Sigmas.getD i 0))).sum

/-- Embedding of ProximalLangevinMonteCarlo.multivariate_laplacian:
(alpha/2)^d * exp(-alpha * norm1(theta - mu)). -/
def multivariate_laplacian (m : PLMC α d G) (theta : Vec α d) : α :=
  (m.alpha / 2) ^ d * m.exp (-(m.alpha * ∑ i, |theta i - m.mu i|))

/-- Embedding of ProximalLangevinMonteCarlo.grad_density_multivariate_gaussian. -/
def grad_density_multivariate_gaussian (m : PLMC α d G) (theta mu : Vec α d)
    (Sigma : Mat α d) : Vec α d :=
  multivariate_gaussian m theta mu Sigma • (npInv Sigma).mulVec (mu - theta)

/-- Embedding of ProximalLangevinMonteCarlo.grad_density_gaussian_mixture. -/
def grad_density_gaussian_mixture (m : PLMC α d G) (theta : Vec α d) : Vec α d :=
  (((List.range m.mus.length).map fun i =>
    m.omegas.getD i 0 • grad_density_multivariate_gaussian m theta (m.mus.getD i 0)
      (m.Sigmas.getD i 0))).sum

/-- Embedding of ProximalLangevinMonteCarlo.grad_potential_gaussian_mixture:
the elementwise quotient -grad_density / density. -/
def grad_potential_gaussian_mixture (m : PLMC α d G) (theta : Vec α d) : Vec α d :=
  fun i => -(grad_density_gaussian_mixture m theta i) / density_gaussian_mixture m theta

/-- Embedding of ProximalLangevinMonteCarlo.gd_update:
theta - gamma * grad_potential_gaussian_mixture(theta). -/
def gd_update (m : PLMC α d G) (theta : Vec α d) (gamma : α) : Vec α d :=
  theta - gamma • grad_potential_gaussian_mixture m theta

/-- Embedding of ProximalLangevinMonteCarlo.grad_Moreau_env:
(theta - prox_laplace(theta, lamda * alpha)) / lamda, elementwise. -/
def grad_Moreau_env (m : PLMC α d G) (theta : Vec α d) : Vec α d :=
  fun i => (theta i - prox_laplace (theta i) (m.lamda * m.alpha)) / m.lamda

/-- Embedding of ProximalLangevinMonteCarlo.prox_update:
-gamma * grad_Moreau_env(theta). -/
def prox_update (m : PLMC α d G) (theta : Vec α d) (gamma : α) : Vec α d :=
  (-gamma) • grad_Moreau_env m theta

/-- Density of scipy.stats.multivariate_normal(mean, cov).pdf(x) for a
scalar covariance cov, that is covariance matrix cov times the identity:
exp(-normsq(x - mean) / (2*cov)) / sqrt((2*pi*cov)^d). -/
def multivariate_normal_pdf (m : PLMC α d G) (mean : Vec α d) (cov : α) (x : Vec α d) : α :=
  m.exp (-(Matrix.dotProduct (x - mean) (x - mean)) / (2 * cov)) / m.sqrt ((2 * m.pi * cov) ^ d)

/-- Embedding of ProximalLangevinMonteCarlo.q_prob: the Gaussian proposal
density with mean gd_update(theta2, gamma) + prox_update(theta2, gamma) and
covariance 2*gamma, evaluated at theta1. -/
def q_prob (m : PLMC α d G) (theta1 theta2 : Vec α d) (gamma : α) : α :=
  multivariate_normal_pdf m (gd_update m theta2 gamma + prox_update m theta2 gamma)
    (2 * gamma) theta1

/-- Embedding of ProximalLangevinMonteCarlo.prob: the product of the exact
target density ratio, with target density_gaussian_mixture times the
non-smoothed multivariate_laplacian, and the proposal density ratio. -/
def prob (m : PLMC α d G) (theta_new theta_old : Vec α d) (gamma : α) : α :=
  (density_gaussian_mixture m theta_new * multivariate_laplacian m theta_new) /
    (density_gaussian_mixture m theta_old * multivariate_laplacian m theta_old) *
  (q_prob m theta_old theta_new gamma / q_prob m theta_new theta_old gamma)

/-- One iteration of the loop of ProximalLangevinMonteCarlo.pgld.  The state
is the current position, the accumulated trajectory and the generator state;
the step draws the noise, replaces the position by its own prox, takes the
gradient step plus the diffusion noise, and appends the result. -/
def pgld_step (m : PLMC α d G) (gamma : α) (s : Vec α d × List (Vec α d) × G) :
    Vec α d × List (Vec α d) × G :=
  let xi := (m.multivariate_normal s.2.2).1
  let g := (m.multivariate_normal s.2.2).2
  let theta0 := prox_laplace_v s.1 (m.lamda * m.alpha)
  let theta_new := gd_update m theta0 gamma + m.sqrt (2 * gamma) • xi
  (theta_new, s.2.1 ++ [theta_new], g)

/-- Embedding of ProximalLangevinMonteCarlo.pgld: seed a fresh generator
from self.seed, draw the initial position, run n steps, return the
trajectory. -/
def pgld (m : PLMC α d G) (gamma : α) : List (Vec α d) :=
  let g0 := m.default_rng m.seed
  let theta0 := (m.standard_normal g0).1
  let g1 := (m.standard_normal g0).2
  ((List.range m.n).foldl (fun s _ => pgld_step m gamma s) (theta0, [], g1)).2.1

/-- One iteration of the loop of ProximalLangevinMonteCarlo.myula:
theta_new = gd_update(theta0, gamma) + prox_update(theta0, gamma)
+ sqrt(2*gamma) * xi, always appended. -/
def myula_step (m : PLMC α d G) (gamma : α) (s : Vec α d × List (Vec α d) × G) :
    Vec α d × List (Vec α d) × G :=
  let xi := (m.multivariate_normal s.2.2).1
  let g := (m.multivariate_normal s.2.2).2
  let theta_new := gd_update m s.1 gamma + prox_update m s.1 gamma + m.sqrt (2 * gamma) • xi
  (theta_new, s.2.1 ++ [theta_new], g)

/-- Embedding of ProximalLangevinMonteCarlo.myula. -/
def myula (m : PLMC α d G) (gamma : α) : List (Vec α d) :=
  let g0 := m.default_rng m.seed
  let theta0 := (m.standard_normal g0).1
  let g1 := (m.standard_normal g0).2
  ((List.range m.n).foldl (fun s _ => myula_step m gamma s) (theta0, [], g1)).2.1

/-- One iteration of the loop of ProximalLangevinMonteCarlo.mymala: propose
theta_new, compute p = prob(theta_new, theta0, gamma) and alpha = min(1, p),
draw u = rng.random(); if u <= alpha the proposal is appended and becomes
the position, otherwise the trajectory and position are left unchanged.
The generator advances in both cases. -/
def mymala_step (m : PLMC α d G) (gamma : α) (s : Vec α d × List (Vec α d) × G) :
    Vec α d × List (Vec α d) × G :=
  let xi := (m.multivariate_normal s.2.2).1
  let g1 := (m.multivariate_normal s.2.2).2
  let theta_new := gd_update m s.1 gamma + prox_update m s.1 gamma + m.sqrt (2 * gamma) • xi
  let p := prob m theta_new s.1 gamma
  let a := min 1 p
  let u := (m.random g1).1
  let g2 := (m.random g1).2
  if u ≤ a then (theta_new, s.2.1 ++ [theta_new], g2) else (s.1, s.2.1, g2)

/-- Embedding of ProximalLangevinMonteCarlo.mymala: runs n
Metropolis-adjusted steps and returns the trajectory together with its
length, mirroring return np.array(theta), len(theta). -/
def mymala (m : PLMC α d G) (gamma : α) : List (Vec α d) × ℕ :=
  let g0 := m.default_rng m.seed
  let theta0 := (m.standard_normal g0).1
  let g1 := (m.standard_normal g0).2
  let s := (List.range m.n).foldl (fun s _ => mymala_step m gamma s) (theta0, [], g1)
  (s.2.1, s.2.1.length)

/-- The body of the fixed-point loop of
ProximalLangevinMonteCarlo.preconditioned_prox.  The state is the pair of
the last computed u (None before the first iteration, mirroring the
unassigned Python local) and the current w.  The quantities rho, eps and
eta are computed before the loop in the source; they are pure, so
recomputing them here is equivalent. -/
def pp_body (m : PLMC α d G) (x : Vec α d) (gamma : α) (Q : Mat α d)
    (s : Option (Vec α d) × Vec α d) : Option (Vec α d) × Vec α d :=
  let rho := 1 / m.norm2 Q
  let eps := max (min 1 rho - 1 / 100000) (1 / 1000000000)
  let eta := rho - eps
  let u := x - Q.mulVec s.2
  (some u, s.2 + eta • u - eta • prox_laplace_v (fun i => s.2 i / eta + u i) (gamma / eta))

/-- Embedding of ProximalLangevinMonteCarlo.preconditioned_prox: starting
from w = zeros_like(x), run the fixed-point loop exactly t times and return
the last computed u.  When t = 0 the Python local u was never assigned and
the return statement raises UnboundLocalError, embedded as none. -/
def preconditioned_prox (m : PLMC α d G) (x : Vec α d) (gamma : α) (Q : Mat α d)
    (t : ℕ) : Option (Vec α d) :=
  ((List.range t).foldl (fun s _ => pp_body m x gamma Q s) (none, fun _ => 0)).1

/-- The fixed-point sweep exactly as the claim states it: u = x - Q w;
w becomes w + eta * u - eta * prox_laplace(w / eta + u, gamma / eta), with
eta = rho - eps, rho = 1 / norm2(Q) and eps = max(min(1, rho) - 1e-5, 1e-9),
the float literals embedded as exact rationals. -/
def claimed_sweep (m : PLMC α d G) (x : Vec α d) (gamma : α) (Q : Mat α d)
    (w : Vec α d) : Vec α d :=
  let rho := 1 / m.norm2 Q
  let eps := max (min 1 rho - 1 / 100000) (1 / 1000000000)
  let eta := rho - eps
  let u := x - Q.mulVec w
  w + eta • u - eta • prox_laplace_v (fun i => w i / eta + u i) (gamma / eta)

/-- Embedding of the scalar branch of
ProximalLangevinMonteCarlo.left_bregman_prox_ell_one_hypent, taken when
isinstance(theta, float) holds. -/
def lb_prox_scalar (m : PLMC α d G) (theta beta gamma : α) : α :=
  if theta > beta * m.sinh gamma then beta * m.sinh (m.arcsinh (theta / beta) - gamma)
  else if theta < beta * m.sinh (-gamma) then beta * m.sinh (m.arcsinh (theta / beta) + gamma)
  else m.sqrt (theta ^ 2 + beta ^ 2) - beta

/-- Embedding of the array branch of
ProximalLangevinMonteCarlo.left_bregman_prox_ell_one_hypent.  The initial
assignment p = np.array(len(theta)) in the source is dead, being overwritten
by the first np.where; both np.where calls select elementwise, the first
between p1 and p3 and the second between p2 and the previous selection. -/
def lb_prox_array (m : PLMC α d G) (thetas : List α) (beta gamma : α) : List α :=
  thetas.map fun theta =>
    let p1 := beta * m.sinh (m.arcsinh (theta / beta) - gamma)
    let p2 := beta * m.sinh (m.arcsinh (theta / beta) + gamma)
    let p3 := m.sqrt (theta ^ 2 + beta ^ 2) - beta
    let p := if theta > beta * m.sinh gamma then p1 else p3
    if theta < beta * m.sinh (-gamma) then p2 else p

/-- Embedding of ProximalLangevinMonteCarlo.left_bregman_prox_ell_one_hypent
with its isinstance dispatch: a Python float takes the scalar path and a
numpy array takes the vectorized path. -/
def left_bregman_prox_ell_one_hypent (m : PLMC α d G) (theta : α ⊕ List α)
    (beta gamma : α) : α ⊕ List α :=
  match theta with
  | Sum.inl t => Sum.inl (lb_prox_scalar m t beta gamma)
  | Sum.inr ts => Sum.inr (lb_prox_array m ts beta gamma)

/-- Embedding of ProximalLangevinMonteCarlo.preconditioned_gd_update:
theta - gamma * M @ grad_potential_gaussian_mixture(theta). -/
def preconditioned_gd_update (m : PLMC α d G) (theta : Vec α d) (gamma : α)
    (M : Mat α d) : Vec α d :=
  theta - gamma • M.mulVec (grad_potential_gaussian_mixture m theta)

/-- Embedding of ProximalLangevinMonteCarlo.preconditioned_prox_update:
-gamma * inv(Q) @ (theta - preconditioned_prox(theta, lamda, Q, t)) / lamda.
The inner preconditioned_prox call propagates its failure at t = 0. -/
def preconditioned_prox_update (m : PLMC α d G) (theta : Vec α d) (gamma : α)
    (Q : Mat α d) (t : ℕ) : Option (Vec α d) :=
  match preconditioned_prox m theta m.lamda Q t with
  | none => none
  | some u => some (fun i => (((-gamma) • npInv Q).mulVec (theta - u)) i / m.lamda)

/-- One iteration of the loop of ProximalLangevinMonteCarlo.ppula:
theta_new = preconditioned_gd_update(theta0, gamma, M)
+ preconditioned_prox_update(theta0, gamma, Q, t)
+ sqrt(2*gamma) * sqrtm(M) @ xi, always appended; a failure of the inner
proximal solve aborts the run. -/
def ppula_step (m : PLMC α d G) (gamma : α) (M Q : Mat α d) (t : ℕ)
    (s : Option (Vec α d × List (Vec α d) × G)) :
    Option (Vec α d × List (Vec α d) × G) :=
  match s with
  | none => none
  | some s0 =>
      let xi := (m.multivariate_normal s0.2.2).1
      let g := (m.multivariate_normal s0.2.2).2
      match preconditioned_prox_update m s0.1 gamma Q t with
      | none => none
      | some pu =>
          let theta_new := preconditioned_gd_update m s0.1 gamma M + pu
            + m.sqrt (2 * gamma) • (m.sqrtm M).mulVec xi
          some (theta_new, s0.2.1 ++ [theta_new], g)

/-- Embedding of ProximalLangevinMonteCarlo.ppula. -/
def ppula (m : PLMC α d G) (gamma : α) (M Q : Mat α d) (t : ℕ) :
    Option (List (Vec α d)) :=
  let g0 := m.default_rng m.seed
  let theta0 := (m.standard_normal g0).1
  let g1 := (m.standard_normal g0).2
  match (List.range m.n).foldl (fun s _ => ppula_step m gamma M Q t s)
      (some (theta0, [], g1)) with
  | none => none
  | some s => some s.2.1

/-- Embedding of ProximalLangevinMonteCarlo.hess_density_multivariate_gaussian:
density * (inv(Sigma) @ outer(theta - mu, theta - mu) @ inv(Sigma) - inv(Sigma)). -/
def hess_density_multivariate_gaussian (m : PLMC α d G) (theta mu : Vec α d)
    (Sigma : Mat α d) : Mat α d :=
  let Sigma_inv := npInv Sigma
  multivariate_gaussian m theta mu Sigma •
    (Sigma_inv * Matrix.vecMulVec (theta - mu) (theta - mu) * Sigma_inv - Sigma_inv)

/-- Embedding of ProximalLangevinMonteCarlo.hess_density_gaussian_mixture. -/
def hess_density_gaussian_mixture (m : PLMC α d G) (theta : Vec α d) : Mat α d :=
  (((List.range m.mus.length).map fun i =>
    m.omegas.getD i 0 • hess_density_multivariate_gaussian m theta (m.mus.getD i 0)
      (m.Sigmas.getD i 0))).sum

/-- Embedding of ProximalLangevinMonteCarlo.hess_potential_gaussian_mixture:
outer(grad_density, grad_density) / density^2 - hess_density / density,
elementwise. -/
def hess_potential_gaussian_mixture (m : PLMC α d G) (theta : Vec α d) : Mat α d :=
  Matrix.of fun i j =>
    Matrix.vecMulVec (grad_density_gaussian_mixture m theta)
        (grad_density_gaussian_mixture m theta) i j
      / density_gaussian_mixture m theta ^ 2
    - hess_density_gaussian_mixture m theta i j / density_gaussian_mixture m theta

/-- Embedding of ProximalLangevinMonteCarlo.grad_FB_env:
(identity - lamda * hess_potential(theta)) @
(theta - prox_laplace(gd_update(theta, lamda), lamda * alpha)) / lamda. -/
def grad_FB_env (m : PLMC α d G) (theta : Vec α d) : Vec α d :=
  fun i => ((1 - m.lamda • hess_potential_gaussian_mixture m theta).mulVec
    (theta - prox_laplace_v (gd_update m theta m.lamda) (m.lamda * m.alpha))) i / m.lamda

/-- Embedding of ProximalLangevinMonteCarlo.gd_FB_update:
theta - gamma * grad_FB_env(theta). -/
def gd_FB_update (m : PLMC α d G) (theta : Vec α d) (gamma : α) : Vec α d :=
  theta - gamma • grad_FB_env m theta

/-- One iteration of the loop of ProximalLangevinMonteCarlo.fbula:
theta_new = gd_FB_update(theta0, gamma) + sqrt(2*gamma) * xi. -/
def fbula_step (m : PLMC α d G) (gamma : α) (s : Vec α d × List (Vec α d) × G) :
    Vec α d × List (Vec α d) × G :=
  let xi := (m.multivariate_normal s.2.2).1
  let g := (m.multivariate_normal s.2.2).2
  let theta_new := gd_FB_update m s.1 gamma + m.sqrt (2 * gamma) • xi
  (theta_new, s.2.1 ++ [theta_new], g)

/-- Embedding of ProximalLangevinMonteCarlo.fbula. -/
def fbula (m : PLMC α d G) (gamma : α) : List (Vec α d) :=
  let g0 := m.default_rng m.seed
  let theta0 := (m.standard_normal g0).1
  let g1 := (m.standard_normal g0).2
  ((List.range m.n).foldl (fun s _ => fbula_step m gamma s) (theta0, [], g1)).2.1

/-- Embedding of ProximalLangevinMonteCarlo.grad_mirror_hyp:
arcsinh(theta / beta), elementwise with beta a d-dimensional array. -/
def grad_mirror_hyp (m : PLMC α d G) (theta beta : Vec α d) : Vec α d :=
  fun i => m.arcsinh (theta i / beta i)

/-- Embedding of ProximalLangevinMonteCarlo.grad_conjugate_mirror_hyp:
beta * sinh(theta), elementwise. -/
def grad_conjugate_mirror_hyp (m : PLMC α d G) (theta beta : Vec α d) : Vec α d :=
  fun i => beta i * m.sinh (theta i)

/-- Broadcast of the array code path of left_bregman_prox_ell_one_hypent
for a d-dimensional theta and a d-dimensional beta with scalar gamma, as
grad_BM_env calls it: all arithmetic and both np.where selections act
elementwise, with beta broadcast per component. -/
def left_bregman_prox_bc (m : PLMC α d G) (theta beta : Vec α d) (gamma : α) :
    Vec α d :=
  fun i =>
    let p1 := beta i * m.sinh (m.arcsinh (theta i / beta i) - gamma)
    let p2 := beta i * m.sinh (m.arcsinh (theta i / beta i) + gamma)
    let p3 := m.sqrt (theta i ^ 2 + beta i ^ 2) - beta i
    let p := if theta i > beta i * m.sinh gamma then p1 else p3
    if theta i < beta i * m.sinh (-gamma) then p2 else p

/-- Embedding of ProximalLangevinMonteCarlo.grad_BM_env:
1/lamda * (theta^2 + beta^2)^(-.5)
* (theta - left_bregman_prox_ell_one_hypent(theta, beta, lamda * alpha)),
elementwise. -/
def grad_BM_env (m : PLMC α d G) (theta beta : Vec α d) : Vec α d :=
  fun i => 1 / m.lamda * m.rpow (theta i ^ 2 + beta i ^ 2) (-(1 / 2))
    * (theta i - left_bregman_prox_bc m theta beta (m.lamda * m.alpha) i)

/-- Embedding of ProximalLangevinMonteCarlo.gd_BM_update:
-gamma * grad_potential_gaussian_mixture(theta). -/
def gd_BM_update (m : PLMC α d G) (theta : Vec α d) (gamma : α) : Vec α d :=
  (-gamma) • grad_potential_gaussian_mixture m theta

/-- Embedding of ProximalLangevinMonteCarlo.prox_BM_update:
-gamma * grad_BM_env(theta, beta). -/
def prox_BM_update (m : PLMC α d G) (theta beta : Vec α d) (gamma : α) : Vec α d :=
  (-gamma) • grad_BM_env m theta beta

/-- One iteration of the loop of ProximalLangevinMonteCarlo.lbmumla:
theta_new = grad_mirror_hyp(theta0, beta) + gd_BM_update(theta0, gamma)
+ prox_BM_update(theta0, sigma, gamma)
+ sqrt(2*gamma) * (theta0^2 + beta^2)^(-.25) * xi, mapped back through
grad_conjugate_mirror_hyp(theta_new, beta) and appended. -/
def lbmumla_step (m : PLMC α d G) (gamma : α) (beta sigma : Vec α d)
    (s : Vec α d × List (Vec α d) × G) : Vec α d × List (Vec α d) × G :=
  let xi := (m.multivariate_normal s.2.2).1
  let g := (m.multivariate_normal s.2.2).2
  let theta_new := grad_mirror_hyp m s.1 beta + gd_BM_update m s.1 gamma
    + prox_BM_update m s.1 sigma gamma
    + fun i => m.sqrt (2 * gamma) * m.rpow (s.1 i ^ 2 + beta i ^ 2) (-(1 / 4)) * xi i
  let theta_new2 := grad_conjugate_mirror_hyp m theta_new beta
  (theta_new2, s.2.1 ++ [theta_new2], g)

/-- Embedding of ProximalLangevinMonteCarlo.lbmumla. -/
def lbmumla (m : PLMC α d G) (gamma : α) (beta sigma : Vec α d) : List (Vec α d) :=
  let g0 := m.default_rng m.seed
  let theta0 := (m.standard_normal g0).1
  let g1 := (m.standard_normal g0).2
  ((List.range m.n).foldl (fun s _ => lbmumla_step m gamma beta sigma s)
    (theta0, [], g1)).2.1

/-- A concrete one-dimensional model over the rationals, with natural
numbers as generator states, used to instantiate the claim theorems at
concrete inputs. -/
def cm : PLMC ℚ 1 ℕ where
  mus := [fun _ => 0]
  Sigmas := [1]
  omegas := [1]
  lamda := 1
  alpha := 1
  mu := fun _ => 0
  n := 2
  seed := 0
  exp := fun x => x + 1
  sqrt := fun x => x
  pi := 3
  sinh := fun x => x
  arcsinh := fun x => x
  norm2 := fun _ => 1
  sqrtm := fun A => A
  rpow := fun x _ => x
  default_rng := fun s => s
  standard_normal := fun g => (fun _ => (g : ℚ), g + 1)
  multivariate_normal := fun g => (fun _ => (g : ℚ) / 2, g + 1)
  random := fun g => ((g : ℚ) / 3, g + 1)

lemma np_sign_mul_abs (x : α) : np_sign x * |x| = x := by
  unfold np_sign
  rcases lt_trichotomy x 0 with h | h | h
  · rw [if_neg (by linarith), if_pos h, abs_of_neg h]; ring
  · simp [h]
  · rw [if_pos h, abs_of_pos h]; ring

/-- Claim C2: for every proximal operator and every input x and step
gamma > 0, prox_conjugate(x, gamma, prox) equals
x - gamma * prox(x / gamma, 1 / gamma), the Moreau identity for the convex
conjugate; the source computes exactly this expression. -/
theorem prox_conjugate_moreau_identity (x gamma : α) (prox : α → α → α) (hg : 0 < gamma) :
    prox_conjugate x gamma prox = x - gamma * prox (x / gamma) (1 / gamma) := rfl

theorem prox_conjugate_moreau_identity_witness :
    prox_conjugate (3 : ℚ) 1 prox_laplace = 3 - 1 * prox_laplace (3 / 1) (1 / 1) :=
  prox_conjugate_moreau_identity 3 1 prox_laplace (by decide)

/-- Claim C4: for every x and every gamma at least 0, prox_laplace(x, gamma)
is 0 whenever the absolute value of x is at most gamma, and is
x - gamma * sign(x) otherwise; at gamma = 0 it is the identity. -/
theorem prox_laplace_soft_threshold (x gamma : α) (hg : 0 ≤ gamma) :
    (|x| ≤ gamma → prox_laplace x gamma = 0)
    ∧ (gamma < |x| → prox_laplace x gamma = x - gamma * np_sign x)
    ∧ prox_laplace x 0 = x := by
  refine ⟨fun h => ?_, fun h => ?_, ?_⟩
  · unfold prox_laplace
    rw [max_eq_right (by linarith)]
    ring
  · unfold prox_laplace
    rw [max_eq_left (by linarith), mul_sub, np_sign_mul_abs]
    ring
  · unfold prox_laplace
    rw [sub_zero, max_eq_left (abs_nonneg x), np_sign_mul_abs]

theorem prox_laplace_soft_threshold_witness :
    prox_laplace (5 : ℚ) 1 = 5 - 1 * np_sign 5 :=
  (prox_laplace_soft_threshold (5 : ℚ) 1 (by decide)).2.1 (by decide)

/-- Claim C6: for a shape parameter outside the four supported values the
code falls through every branch and raises UnboundLocalError on the
never-assigned local variable, rather than an explicit unsupported
parameter error; for p = 3 it returns the closed-form root
sign(x) * (sqrt(1 + 12 gamma abs(x)) - 1) / (6 gamma). -/
theorem prox_gen_gaussian_unbound_error_and_p3 :
    (∀ (sqrt cbrt : ℚ → ℚ) (x gamma : ℚ),
      prox_gen_gaussian sqrt cbrt x gamma 2 = Except.error PyErr.unboundLocalProx)
    ∧ (∀ (sqrt cbrt : ℚ → ℚ) (x gamma : ℚ),
      prox_gen_gaussian sqrt cbrt x gamma 3
        = Except.ok (np_sign x * (sqrt (1 + 12 * gamma * |x|) - 1) / (6 * gamma))) := by
  constructor
  · intro sqrt cbrt x gamma
    unfold prox_gen_gaussian
    rw [if_neg (by norm_num), if_neg (by norm_num), if_neg (by norm_num), if_neg (by norm_num)]
  · intro sqrt cbrt x gamma
    unfold prox_gen_gaussian
    rw [if_neg (by norm_num), if_neg (by norm_num), if_pos rfl]

/-- Claim C8: prox_huber and prox_exp do not vectorize: applied to the
two-element array with entries 0 and 10, the elementwise comparison in the
conditional expression yields a two-element boolean array whose Python
truth value raises ValueError, so no value of any shape is returned. -/
theorem prox_huber_exp_array_valueerror :
    prox_huber_arr (fun a => a) [(0 : ℚ), 10] 1 (1 / 2)
      = Except.error PyErr.ambiguousTruthValue
    ∧ prox_exp_arr [(0 : ℚ), 10] 1 = Except.error PyErr.ambiguousTruthValue :=
  ⟨rfl, rfl⟩

lemma myula_foldl_length (m : PLMC α d G) (gamma : α) :
    ∀ (l : List ℕ) (s : Vec α d × List (Vec α d) × G),
      ((l.foldl (fun s _ => myula_step m gamma s) s).2.1).length = s.2.1.length + l.length := by
  intro l
  induction l with
  | nil => intro s; simp
  | cons a l ih =>
      intro s
      rw [List.foldl_cons, ih]
      have hstep : ((myula_step m gamma s).2.1).length = s.2.1.length + 1 := by
        simp [myula_step]
      rw [hstep, List.length_cons]
      omega

lemma pgld_foldl_length (m : PLMC α d G) (gamma : α) :
    ∀ (l : List ℕ) (s : Vec α d × List (Vec α d) × G),
      ((l.foldl (fun s _ => pgld_step m gamma s) s).2.1).length = s.2.1.length + l.length := by
  intro l
  induction l with
  | nil => intro s; simp
  | cons a l ih =>
      intro s
      rw [List.foldl_cons, ih]
      have hstep : ((pgld_step m gamma s).2.1).length = s.2.1.length + 1 := by
        simp [pgld_step]
      rw [hstep, List.length_cons]
      omega

/-- Claim C7: no sampler entry point validates its configuration.  For
every model, in particular one with a non-positive-definite covariance or
K = 0, and every step size gamma, in particular a non-positive one, myula
and pgld run their full loop and return a length-n trajectory instead of
failing with a configuration error before iterating. -/
theorem samplers_iterate_without_validation (m : PLMC α d G) (gamma : α) :
    (myula m gamma).length = m.n ∧ (pgld m gamma).length = m.n := by
  constructor
  · simp only [myula]
    rw [myula_foldl_length]
    simp
  · simp only [pgld]
    rw [pgld_foldl_length]
    simp

lemma mymala_foldl_length_le (m : PLMC α d G) (gamma : α) :
    ∀ (l : List ℕ) (s : Vec α d × List (Vec α d) × G),
      ((l.foldl (fun s _ => mymala_step m gamma s) s).2.1).length ≤ s.2.1.length + l.length := by
  intro l
  induction l with
  | nil => intro s; simp
  | cons a l ih =>
      intro s
      rw [List.foldl_cons]
      refine le_trans (ih _) ?_
      have hstep : ((mymala_step m gamma s).2.1).length ≤ s.2.1.length + 1 := by
        simp only [mymala_step]
        split
        · simp
        · simp
      rw [List.length_cons]
      omega

/-- Claim C1: a MYMALA step proposes
theta_new = gd_update(theta0, gamma) + prox_update(theta0, gamma)
+ sqrt(2 gamma) * xi and appends it exactly when the uniform draw is at
most min(1, p), where p is the product of the exact non-smoothed target
density ratio and the Gaussian proposal density ratio; a rejected proposal
leaves the trajectory unchanged, the returned effective count is the
trajectory length, and that length is at most K = n. -/
theorem mymala_acceptance_and_effective_count (m : PLMC α d G) (gamma : α) :
    (∀ (theta0 : Vec α d) (traj : List (Vec α d)) (g : G),
      ((mymala_step m gamma (theta0, traj, g)).2.1
          = traj ++ [gd_update m theta0 gamma + prox_update m theta0 gamma
              + m.sqrt (2 * gamma) • (m.multivariate_normal g).1]
        ↔ (m.random (m.multivariate_normal g).2).1
            ≤ min 1 (prob m (gd_update m theta0 gamma + prox_update m theta0 gamma
                + m.sqrt (2 * gamma) • (m.multivariate_normal g).1) theta0 gamma))
      ∧ (mymala_step m gamma (theta0, traj, g)).2.1
          = (if (m.random (m.multivariate_normal g).2).1
                ≤ min 1 (prob m (gd_update m theta0 gamma + prox_update m theta0 gamma
                    + m.sqrt (2 * gamma) • (m.multivariate_normal g).1) theta0 gamma)
             then traj ++ [gd_update m theta0 gamma + prox_update m theta0 gamma
                + m.sqrt (2 * gamma) • (m.multivariate_normal g).1]
             else traj))
    ∧ (mymala m gamma).2 = (mymala m gamma).1.length
    ∧ (mymala m gamma).1.length ≤ m.n := by
  refine ⟨fun theta0 traj g => ?_, rfl, ?_⟩
  · have hstep : (mymala_step m gamma (theta0, traj, g)).2.1
        = (if (m.random (m.multivariate_normal g).2).1
              ≤ min 1 (prob m (gd_update m theta0 gamma + prox_update m theta0 gamma
                  + m.sqrt (2 * gamma) • (m.multivariate_normal g).1) theta0 gamma)
           then traj ++ [gd_update m theta0 gamma + prox_update m theta0 gamma
              + m.sqrt (2 * gamma) • (m.multivariate_normal g).1]
           else traj) := by
      simp only [mymala_step]
      split <;> rfl
    refine ⟨?_, hstep⟩
    rw [hstep]
    by_cases hc : (m.random (m.multivariate_normal g).2).1
        ≤ min 1 (prob m (gd_update m theta0 gamma + prox_update m theta0 gamma
            + m.sqrt (2 * gamma) • (m.multivariate_normal g).1) theta0 gamma)
    · simp [hc]
    · simp [hc]
  · simp only [mymala]
    refine le_trans (mymala_foldl_length_le m gamma _ _) ?_
    simp

lemma pp_body_eq (m : PLMC α d G) (x : Vec α d) (gamma : α) (Q : Mat α d)
    (s : Option (Vec α d) × Vec α d) :
    pp_body m x gamma Q s = (some (x - Q.mulVec s.2), claimed_sweep m x gamma Q s.2) := rfl

lemma pp_foldl (m : PLMC α d G) (x : Vec α d) (gamma : α) (Q : Mat α d) (t : ℕ) :
    (List.range (t + 1)).foldl (fun s _ => pp_body m x gamma Q s) (none, fun _ => 0)
      = (some (x - Q.mulVec ((claimed_sweep m x gamma Q)^[t] (fun _ => 0))),
         (claimed_sweep m x gamma Q)^[t + 1] (fun _ => 0)) := by
  induction t with
  | zero =>
      rw [List.range_succ]
      simp [pp_body_eq]
  | succ t ih =>
      rw [List.range_succ, List.foldl_append, ih]
      simp [pp_body_eq, Function.iterate_succ_apply']

/-- Claim C3, amended to a strictly positive iteration budget: for every
t at least 1, preconditioned_prox runs exactly t fixed-point sweeps
u = x - Q w; w := w + eta u - eta prox_laplace(w / eta + u, gamma / eta)
with eta = rho - eps, rho = 1 / norm2(Q), eps = max(min(1, rho) - 1e-5,
1e-9), starting from w = 0, and returns the u computed in the final sweep,
namely x - Q applied to the (t-1)-fold sweep of 0, with no early exit. -/
theorem preconditioned_prox_iterates_claimed_sweep (m : PLMC α d G) (x : Vec α d)
    (gamma : α) (Q : Mat α d) (t : ℕ) (ht : 1 ≤ t) :
    preconditioned_prox m x gamma Q t
      = some (x - Q.mulVec ((claimed_sweep m x gamma Q)^[t - 1] (fun _ => 0))) := by
  obtain ⟨k, rfl⟩ := Nat.exists_eq_add_of_le ht
  simp only [preconditioned_prox, Nat.add_comm 1 k]
  rw [pp_foldl]
  simp

theorem preconditioned_prox_iterates_claimed_sweep_witness :
    preconditioned_prox cm (fun _ => (1 : ℚ)) 1 1 1
      = some ((fun _ => (1 : ℚ))
          - (1 : Mat ℚ 1).mulVec ((claimed_sweep cm (fun _ => (1 : ℚ)) 1 1)^[1 - 1] (fun _ => 0))) :=
  preconditioned_prox_iterates_claimed_sweep cm (fun _ => (1 : ℚ)) 1 1 1 (by decide)

/-- Counterexample to claim C3 as stated: with iteration budget t = 0 the
loop body never runs, the Python local u is never assigned and the return
statement raises UnboundLocalError, so no final u is returned. -/
theorem preconditioned_prox_zero_budget_returns_nothing :
    preconditioned_prox cm (fun _ => (1 : ℚ)) 1 1 0 = none := rfl

/-- Claim C9: each of the six sampler entry points seeds a fresh generator
from the caller-supplied seed at its start, so the output trajectory, and
for MYMALA also the effective count, is a deterministic function of the
model parameters, the generator model, the seed and the step parameters:
two runs of any sampler with field-for-field equal configurations and the
same step arguments produce identical outputs. -/
theorem samplers_reproducible (m m2 : PLMC α d G) (gamma gamma2 : α)
    (M Q : Mat α d) (t : ℕ) (beta sigma : Vec α d)
    (h1 : m.mus = m2.mus) (h2 : m.Sigmas = m2.Sigmas) (h3 : m.omegas = m2.omegas)
    (h4 : m.lamda = m2.lamda) (h5 : m.alpha = m2.alpha) (h6 : m.mu = m2.mu)
    (h7 : m.n = m2.n) (h8 : m.seed = m2.seed) (h9 : m.exp = m2.exp)
    (h10 : m.sqrt = m2.sqrt) (h11 : m.pi = m2.pi) (h12 : m.sinh = m2.sinh)
    (h13 : m.arcsinh = m2.arcsinh) (h14 : m.norm2 = m2.norm2)
    (h15 : m.sqrtm = m2.sqrtm) (h16 : m.rpow = m2.rpow)
    (h17 : m.default_rng = m2.default_rng) (h18 : m.standard_normal = m2.standard_normal)
    (h19 : m.multivariate_normal = m2.multivariate_normal) (h20 : m.random = m2.random)
    (hgamma : gamma = gamma2) :
    pgld m gamma = pgld m2 gamma2 ∧ myula m gamma = myula m2 gamma2
    ∧ mymala m gamma = mymala m2 gamma2
    ∧ ppula m gamma M Q t = ppula m2 gamma2 M Q t
    ∧ fbula m gamma = fbula m2 gamma2
    ∧ lbmumla m gamma beta sigma = lbmumla m2 gamma2 beta sigma := by
  subst hgamma
  cases m
  cases m2
  dsimp only at h1 h2 h3 h4 h5 h6 h7 h8 h9 h10 h11 h12 h13 h14 h15 h16 h17 h18 h19 h20
  subst h1 h2 h3 h4 h5 h6 h7 h8 h9 h10 h11 h12 h13 h14 h15 h16 h17 h18 h19 h20
  exact ⟨rfl, rfl, rfl, rfl, rfl, rfl⟩

theorem samplers_reproducible_witness :
    pgld cm 1 = pgld cm 1 ∧ myula cm 1 = myula cm 1 ∧ mymala cm 1 = mymala cm 1
    ∧ ppula cm 1 1 1 1 = ppula cm 1 1 1 1 ∧ fbula cm 1 = fbula cm 1
    ∧ lbmumla cm 1 (fun _ => 1) (fun _ => 1) = lbmumla cm 1 (fun _ => 1) (fun _ => 1) :=
  samplers_reproducible cm cm 1 1 1 1 1 (fun _ => 1) (fun _ => 1) rfl rfl rfl rfl rfl
    rfl rfl rfl rfl rfl rfl rfl rfl rfl rfl rfl rfl rfl rfl rfl rfl

/-- Claim C10: for every scalar theta and parameters beta > 0, gamma > 0,
the scalar path and the array path of left_bregman_prox_ell_one_hypent
agree, the array path applied to the one-element array of theta returning
the one-element array of the scalar result; at the branch boundaries
theta = beta * sinh(gamma) and theta = -(beta * sinh(gamma)) both paths
select the interior branch sqrt(theta^2 + beta^2) - beta.  The sinh
hypotheses are the oddness of sinh and its nonnegativity at gamma > 0,
both true of the real sinh the source evaluates. -/
lemma lb_single_agrees (m : PLMC α d G) (beta gamma : α) (hb : 0 < beta)
    (hodd : m.sinh (-gamma) = -m.sinh gamma) (hpos : 0 ≤ m.sinh gamma) (theta : α) :
    lb_prox_array m [theta] beta gamma = [lb_prox_scalar m theta beta gamma] := by
  have hc : 0 ≤ beta * m.sinh gamma := mul_nonneg hb.le hpos
  have hb2 : beta * m.sinh (-gamma) = -(beta * m.sinh gamma) := by rw [hodd]; ring
  simp only [lb_prox_array, List.map_cons, List.map_nil, lb_prox_scalar]
  congr 1
  by_cases hgt : theta > beta * m.sinh gamma
  · have hnlt : ¬ theta < beta * m.sinh (-gamma) := by rw [hb2]; push_neg; linarith
    rw [if_neg hnlt, if_pos hgt, if_pos hgt]
  · by_cases hlt : theta < beta * m.sinh (-gamma)
    · rw [if_pos hlt, if_neg hgt, if_pos hlt]
    · rw [if_neg hlt, if_neg hgt, if_neg hgt, if_neg hlt]

theorem left_bregman_scalar_array_agree (m : PLMC α d G) (beta gamma : α)
    (hb : 0 < beta) (hg : 0 < gamma) (hodd : m.sinh (-gamma) = -m.sinh gamma)
    (hpos : 0 ≤ m.sinh gamma) :
    (∀ theta : α,
      left_bregman_prox_ell_one_hypent m (Sum.inr [theta]) beta gamma
        = Sum.inr [lb_prox_scalar m theta beta gamma]
      ∧ left_bregman_prox_ell_one_hypent m (Sum.inl theta) beta gamma
        = Sum.inl (lb_prox_scalar m theta beta gamma))
    ∧ (∀ theta : α, theta = beta * m.sinh gamma ∨ theta = -(beta * m.sinh gamma) →
      lb_prox_scalar m theta beta gamma = m.sqrt (theta ^ 2 + beta ^ 2) - beta
      ∧ lb_prox_array m [theta] beta gamma = [m.sqrt (theta ^ 2 + beta ^ 2) - beta]) := by
  have hc : 0 ≤ beta * m.sinh gamma := mul_nonneg hb.le hpos
  have hb2 : beta * m.sinh (-gamma) = -(beta * m.sinh gamma) := by rw [hodd]; ring
  constructor
  · intro theta
    exact ⟨by
      simp only [left_bregman_prox_ell_one_hypent]
      rw [lb_single_agrees m beta gamma hb hodd hpos theta], rfl⟩
  · intro theta hth
    have hscalar : lb_prox_scalar m theta beta gamma
        = m.sqrt (theta ^ 2 + beta ^ 2) - beta := by
      rcases hth with h | h
      · subst h
        unfold lb_prox_scalar
        rw [if_neg (lt_irrefl _), if_neg (by rw [hb2]; push_neg; linarith)]
      · subst h
        unfold lb_prox_scalar
        rw [if_neg (by push_neg; linarith), if_neg (by rw [hb2]; exact lt_irrefl _)]
    refine ⟨hscalar, ?_⟩
    rw [lb_single_agrees m beta gamma hb hodd hpos theta, hscalar]

theorem left_bregman_scalar_array_agree_witness :
    left_bregman_prox_ell_one_hypent cm (Sum.inr [(5 : ℚ)]) 1 1
      = Sum.inr [lb_prox_scalar cm 5 1 1]
    ∧ left_bregman_prox_ell_one_hypent cm (Sum.inl (5 : ℚ)) 1 1
      = Sum.inl (lb_prox_scalar cm 5 1 1) :=
  (left_bregman_scalar_array_agree cm 1 1 (by decide) (by decide) rfl (by decide)).1 5

lemma prox_huber_closed_form (gamma tau : ℝ) (hg : 0 < gamma) (ht : 0 < tau) (x : ℝ) :
    prox_huber Real.sqrt x gamma tau
      = x - max (-(gamma * Real.sqrt (2 * tau)))
          (min (gamma * Real.sqrt (2 * tau)) (2 * tau / (2 * tau + 1) * x)) := by
  have hs0 : 0 < Real.sqrt (2 * tau) := Real.sqrt_pos.mpr (by linarith)
  have hs2 : Real.sqrt (2 * tau) * Real.sqrt (2 * tau) = 2 * tau :=
    Real.mul_self_sqrt (by linarith)
  unfold prox_huber
  set s := Real.sqrt (2 * tau) with hsdef
  have h2t1 : (0 : ℝ) < 2 * tau + 1 := by linarith
  have hk : (0 : ℝ) < 2 * tau / (2 * tau + 1) := by positivity
  have hgs : 0 < gamma * s := mul_pos hg hs0
  split_ifs with h
  · have hkc : 2 * tau / (2 * tau + 1) * (gamma * (2 * tau + 1) / s) = gamma * s := by
      field_simp
      linear_combination -(gamma * (2 * tau + 1)) * hs2
    have hkx : |2 * tau / (2 * tau + 1) * x| ≤ gamma * s := by
      rw [abs_mul, abs_of_pos hk]
      calc 2 * tau / (2 * tau + 1) * |x|
          ≤ 2 * tau / (2 * tau + 1) * (gamma * (2 * tau + 1) / s) :=
            mul_le_mul_of_nonneg_left h hk.le
        _ = gamma * s := hkc
    obtain ⟨hl, hr⟩ := abs_le.mp hkx
    rw [min_eq_right hr, max_eq_right hl]
    field_simp
    ring
  · push_neg at h
    rcases le_or_lt 0 x with hx | hx
    · rw [abs_of_nonneg hx] at h
      have hx0 : 0 < x := lt_trans (by positivity) h
      have h2 : gamma * (2 * tau + 1) < x * s := (div_lt_iff hs0).mp h
      have h3 : gamma * (2 * tau + 1) * s < x * (2 * tau) := by
        calc gamma * (2 * tau + 1) * s = gamma * (2 * tau + 1) * s := rfl
          _ < x * s * s := mul_lt_mul_of_pos_right h2 hs0
          _ = x * (2 * tau) := by rw [mul_assoc, hs2]
      have hgt : gamma * s < 2 * tau / (2 * tau + 1) * x := by
        rw [div_mul_eq_mul_div, lt_div_iff h2t1]
        nlinarith [h3]
      rw [min_eq_left hgt.le, max_eq_right (by linarith : -(gamma * s) ≤ gamma * s)]
      unfold np_sign
      rw [if_pos hx0]
      ring
    · rw [abs_of_neg hx] at h
      have h2 : gamma * (2 * tau + 1) < -x * s := (div_lt_iff hs0).mp h
      have h3 : gamma * (2 * tau + 1) * s < -x * (2 * tau) := by
        calc gamma * (2 * tau + 1) * s = gamma * (2 * tau + 1) * s := rfl
          _ < -x * s * s := mul_lt_mul_of_pos_right h2 hs0
          _ = -x * (2 * tau) := by rw [mul_assoc, hs2]
      have hlt : 2 * tau / (2 * tau + 1) * x < -(gamma * s) := by
        rw [div_mul_eq_mul_div, div_lt_iff h2t1]
        nlinarith [h3]
      rw [min_eq_right (by linarith : 2 * tau / (2 * tau + 1) * x ≤ gamma * s),
        max_eq_left hlt.le]
      unfold np_sign
      rw [if_neg (by linarith), if_pos hx]
      ring

/-- Claim C5: prox_huber returns the linear shrink x / (2 tau + 1) when
the absolute value of x is at most gamma (2 tau + 1) / sqrt(2 tau) and
x - gamma sqrt(2 tau) sign(x) otherwise; the two branch formulas coincide
on the branch boundary, and the function is continuous in x. -/
theorem prox_huber_branches_and_continuity (gamma tau : ℝ) (hg : 0 < gamma) (ht : 0 < tau) :
    (∀ x : ℝ, |x| ≤ gamma * (2 * tau + 1) / Real.sqrt (2 * tau) →
      prox_huber Real.sqrt x gamma tau = x / (2 * tau + 1))
    ∧ (∀ x : ℝ, gamma * (2 * tau + 1) / Real.sqrt (2 * tau) < |x| →
      prox_huber Real.sqrt x gamma tau = x - gamma * Real.sqrt (2 * tau) * np_sign x)
    ∧ (∀ x : ℝ, |x| = gamma * (2 * tau + 1) / Real.sqrt (2 * tau) →
      x / (2 * tau + 1) = x - gamma * Real.sqrt (2 * tau) * np_sign x)
    ∧ Continuous (fun x : ℝ => prox_huber Real.sqrt x gamma tau) := by
  have hs0 : 0 < Real.sqrt (2 * tau) := Real.sqrt_pos.mpr (by linarith)
  have hs2 : Real.sqrt (2 * tau) * Real.sqrt (2 * tau) = 2 * tau :=
    Real.mul_self_sqrt (by linarith)
  have h2t1 : (0 : ℝ) < 2 * tau + 1 := by linarith
  have hc0 : 0 < gamma * (2 * tau + 1) / Real.sqrt (2 * tau) := by positivity
  set s := Real.sqrt (2 * tau) with hsdef
  refine ⟨fun x h => ?_, fun x h => ?_, fun x h => ?_, ?_⟩
  · unfold prox_huber
    rw [← hsdef, if_pos h]
  · unfold prox_huber
    rw [← hsdef, if_neg (not_le.mpr h)]
  · rcases (abs_eq hc0.le).mp h with hx | hx
    · have hx0 : 0 < x := by rw [hx]; exact hc0
      unfold np_sign
      rw [if_pos hx0, hx]
      field_simp
      linear_combination gamma * (2 * tau + 1) * s * hs2
    · have hx0 : x < 0 := by rw [hx]; linarith
      unfold np_sign
      rw [if_neg (by linarith), if_pos hx0, hx]
      field_simp
      linear_combination -(gamma * (2 * tau + 1) * s) * hs2
  · have hcf : (fun x : ℝ => prox_huber Real.sqrt x gamma tau)
        = fun x : ℝ => x - max (-(gamma * Real.sqrt (2 * tau)))
            (min (gamma * Real.sqrt (2 * tau)) (2 * tau / (2 * tau + 1) * x)) :=
      funext fun x => prox_huber_closed_form gamma tau hg ht x
    rw [hcf]
    exact continuous_id.sub (continuous_const.max (continuous_const.min
      (continuous_const.mul continuous_id)))

theorem prox_huber_branches_and_continuity_witness :
    Continuous (fun x : ℝ => prox_huber Real.sqrt x 1 (1 / 2)) :=
  (prox_huber_branches_and_continuity 1 (1 / 2) one_pos one_half_pos).2.2.2

end ProxLMC
